import Mathlib

/-!
Shallow embedding of `src/problem/tsp_cs.cpp` (PaGMO, City-Selection TSP).

Doubles that only flow through comparisons (the weight-matrix validator) are
modelled as `DVal := Option ℚ`, where `none` stands for NaN and `some q` for a
finite value `q`.  All arithmetic paths (the subsequence search, the fitness,
the constraints) are modelled over `ℚ`.  The imperative double loop of
`find_city_subsequence` is embedded as a fuel-indexed step function; `none`
as a loop result means the fuel was exhausted.
-/

/-- Model of a C++ `double` restricted to the operations the validator uses:
`none` is NaN, `some q` a finite value. -/
abbrev DVal : Type := Option ℚ

/-- Contextual conversion of a `double` to `bool` (`!x` applies this first):
any non-zero value, NaN included, converts to `true`. -/
def dToBool : DVal → Bool
  | none => true
  | some q => decide (q ≠ 0)

/-- IEEE comparison `x != 0`: true for NaN and for every non-zero value. -/
def dNeZero : DVal → Bool
  | none => true
  | some q => decide (q ≠ 0)

/-- Result of the C++ expression `!x` used as a `double` again
(`bool` promotes to `0.0` or `1.0`). -/
def dNotVal (x : DVal) : DVal := some (if dToBool x then 0 else 1)

/-- IEEE equality between two doubles: any comparison with NaN is false. -/
def dEq : DVal → DVal → Bool
  | none, _ => false
  | _, none => false
  | some a, some b => decide (a = b)

/-- Embedding of the condition on line 105 of `tsp_cs.cpp`:
`(!matrix.at(i).at(j)) == matrix.at(i).at(j)`. -/
def nanCheckExpr (x : DVal) : Bool := dEq (dNotVal x) x

/-- Per-cell checks of `tsp_cs::check_weights` (lines 100-107): the three
sequential `if ... pagmo_throw` statements for cell `(i, j)`. -/
def checkCell (i j : ℕ) (x : DVal) : Except String Unit :=
  if i = j ∧ dNeZero x then Except.error ("main diagonal elements must all be zeros.")
  else if i ≠ j ∧ ¬ dToBool x then Except.error ("adjacency matrix contains zero values.")
  else if i ≠ j ∧ nanCheckExpr x then Except.error ("adjacency matrix contains NaN values.")
  else Except.ok ()

/-- Inner `j` loop of `check_weights` over the cells of row `i`,
with `j` starting at the given index. -/
def checkCells (i : ℕ) : ℕ → List DVal → Except String Unit
  | _, [] => Except.ok ()
  | j, x :: rest =>
    match checkCell i j x with
    | Except.error e => Except.error e
    | Except.ok _ => checkCells i (j + 1) rest

/-- Outer `i` loop of `check_weights`: per row, the squareness test then the
cell loop. -/
def checkRows (ncols : ℕ) : ℕ → List (List DVal) → Except String Unit
  | _, [] => Except.ok ()
  | i, row :: rest =>
    if row.length ≠ ncols then Except.error ("adjacency matrix is not square")
    else
      match checkCells i 0 row with
      | Except.error e => Except.error e
      | Except.ok _ => checkRows ncols (i + 1) rest

/-- Embedding of `tsp_cs::check_weights` (lines 90-109). -/
def check_weights (matrix : List (List DVal)) : Except String Unit :=
  checkRows matrix.length 0 matrix

/-- Embedding of `tsp_cs::compute_idx` (lines 161-165):
`i*(n-1) + j - (j>i ? 1 : 0)`. -/
def compute_idx (i j n : ℕ) : ℕ :=
  i * (n - 1) + j - (if j > i then 1 else 0)

/-- The three chromosome encodings of `base_tsp`. -/
inductive EncodingType
  | FULL
  | RANDOMKEYS
  | CITIES
  deriving DecidableEq, Repr

/-- Problem-instance fields of `tsp_cs` (NaN-free weights, as accepted by a
successful construction). -/
structure tsp_cs where
  m_weights : List (List ℚ)
  m_values : List ℚ
  m_max_path_length : ℚ
  m_min_value : ℚ
  m_encoding : EncodingType
  deriving DecidableEq, Repr

/-- `get_n_cities`: the city count is the weight-matrix size fixed at
construction. -/
def tsp_cs.n_cities (p : tsp_cs) : ℕ := p.m_weights.length

/-- C++ `std::min(a, b)` on two values: `b < a ? b : a`.  Applied to the two
iterators `begin` (position 0) and `end` (position `length`) of the value
vector in the constructor on line 73. -/
def stdMinIter (a b : ℕ) : ℕ := if b < a then b else a

/-- Embedding of the initialisation `m_min_value = *std::min(m_values.begin(),
m_values.end())` on line 73: `std::min` compares the two iterator positions
(0 and `length`), yields position 0, and dereferencing reads element 0. -/
def m_min_value_init (values : List ℚ) : ℚ :=
  values.getD (stdMinIter 0 values.length) 0

/-- Embedding of the main `tsp_cs` constructor (lines 61-74): validate the
weights, require matching sizes, then cache `m_min_value`. -/
def tsp_cs_new (w : List (List ℚ)) (v : List ℚ) (maxlen : ℚ) (enc : EncodingType) :
    Except String tsp_cs :=
  match check_weights (w.map (fun row => row.map some)) with
  | Except.error e => Except.error e
  | Except.ok _ =>
    if w.length ≠ v.length then
      Except.error ("Size of weight matrix and values vector must be equal")
    else
      Except.ok
        { m_weights := w, m_values := v, m_max_path_length := maxlen,
          m_min_value := m_min_value_init v, m_encoding := enc }

/-- The default 3-city instance built by the default constructor
(lines 36-49). -/
def tsp_cs_default : tsp_cs :=
  { m_weights := [[0, 1, 1], [1, 0, 1], [1, 1, 0]],
    m_values := [1, 1, 1],
    m_max_path_length := 1,
    m_min_value := 1,
    m_encoding := EncodingType.RANDOMKEYS }

/-- Read access `w[i][j]` on the weight matrix. -/
def wAt (w : List (List ℚ)) (i j : ℕ) : ℚ := (w.getD i []).getD j 0

/-- Read access `v[i]` on the value vector. -/
def vAt (v : List ℚ) (i : ℕ) : ℚ := v.getD i 0

/-- Read access `tour[i]`. -/
def tourAt (tour : List ℕ) (i : ℕ) : ℕ := tour.getD i 0

/-- Local state of `tsp_cs::find_city_subsequence` (lines 190-200): the two
cursors, the two loop flags, the running value/budget accumulators and the
four `retval` output slots. -/
structure SState where
  it_l : ℕ
  it_r : ℕ
  cond_r : Bool
  cond_l : Bool
  cum_p : ℚ
  saved_length : ℚ
  retval_p : ℚ
  retval_l : ℚ
  retval_it_l : ℕ
  retval_it_r : ℕ
  deriving DecidableEq, Repr

/-- One iteration of the inner `while (cond_r)` body (lines 206-235): advance
the right cursor, charge the traversed edge, add the value at the new
position (note: the source reads `m_values[(it_r + 1) % n_cities]`, indexing
by tour position, not by city), then either stop or compare with the
incumbent. -/
def innerBody (w : List (List ℚ)) (v : List ℚ) (tour : List ℕ) (n : ℕ) (s : SState) : SState :=
  let saved := s.saved_length - wAt w (tourAt tour (s.it_r % n)) (tourAt tour ((s.it_r + 1) % n))
  let cum := s.cum_p + vAt v ((s.it_r + 1) % n)
  let itr := s.it_r + 1
  if saved < 0 ∨ s.it_l % n = itr % n then
    { s with saved_length := saved, cum_p := cum, it_r := itr, cond_r := false }
  else if s.retval_p < cum then
    { s with
      saved_length := saved
      cum_p := cum
      it_r := itr
      retval_p := cum
      retval_l := saved
      retval_it_l := s.it_l % n
      retval_it_r := itr % n }
  else if cum = s.retval_p ∧ s.retval_l < saved then
    { s with
      saved_length := saved
      cum_p := cum
      it_r := itr
      retval_p := cum
      retval_l := saved
      retval_it_l := s.it_l % n
      retval_it_r := itr % n }
  else
    { s with saved_length := saved, cum_p := cum, it_r := itr }

/-- The inner `while (cond_r)` loop, with fuel; `none` means the fuel ran
out with the loop still running. -/
def innerLoop (w : List (List ℚ)) (v : List ℚ) (tour : List ℕ) (n : ℕ) :
    ℕ → SState → Option SState
  | 0, s => if s.cond_r then none else some s
  | fuel + 1, s =>
    if s.cond_r then innerLoop w v tour n fuel (innerBody w v tour n s) else some s

/-- The tail of the outer loop body (lines 236-273): either detect that the
window wrapped (and stop), or release the leftmost edge, drop the value at
the left position (the source reads `m_values[it_l]`, again indexing by
position), advance the left cursor, possibly reopen the inner loop and
compare with the incumbent, and stop once `it_l` reaches `n`. -/
def outerBody (w : List (List ℚ)) (v : List ℚ) (tour : List ℕ) (n : ℕ) (s : SState) : SState :=
  if s.it_l % n = s.it_r % n then
    { s with cond_l := false }
  else
    let saved := s.saved_length + wAt w (tourAt tour (s.it_l % n)) (tourAt tour ((s.it_l + 1) % n))
    let cum := s.cum_p - vAt v s.it_l
    let itl := s.it_l + 1
    let s1 : SState :=
      if 0 < saved then
        if s.retval_p < cum then
          { s with
            saved_length := saved
            cum_p := cum
            it_l := itl
            cond_r := true
            retval_p := cum
            retval_l := saved
            retval_it_l := itl % n
            retval_it_r := s.it_r % n }
        else if cum = s.retval_p ∧ s.retval_l < saved then
          { s with
            saved_length := saved
            cum_p := cum
            it_l := itl
            cond_r := true
            retval_p := cum
            retval_l := saved
            retval_it_l := itl % n
            retval_it_r := s.it_r % n }
        else
          { s with saved_length := saved, cum_p := cum, it_l := itl, cond_r := true }
      else
        { s with saved_length := saved, cum_p := cum, it_l := itl }
    if itl = n then { s1 with cond_l := false } else s1

/-- The outer `while (cond_l)` loop, with fuel: run the inner loop to
completion, then the outer body. -/
def outerLoop (w : List (List ℚ)) (v : List ℚ) (tour : List ℕ) (n : ℕ) :
    ℕ → SState → Option SState
  | 0, s => if s.cond_l then none else some s
  | fuel + 1, s =>
    if s.cond_l then
      match innerLoop w v tour n (n + 1) s with
      | none => none
      | some s1 => outerLoop w v tour n fuel (outerBody w v tour n s1)
    else some s

/-- Initial state of the search (lines 190-200): single-position window at
tour position 0, whose value is `m_values[tour[0]]` (here the source does
index through the tour) and whose remaining budget is the full
`m_max_path_length`. -/
def initState (v : List ℚ) (tour : List ℕ) (maxlen : ℚ) : SState :=
  { it_l := 0, it_r := 0, cond_r := true, cond_l := true,
    cum_p := vAt v (tourAt tour 0), saved_length := maxlen,
    retval_p := vAt v (tourAt tour 0), retval_l := maxlen,
    retval_it_l := 0, retval_it_r := 0 }

/-- The four outputs of `find_city_subsequence`. -/
structure FindResult where
  retval_p : ℚ
  retval_l : ℚ
  retval_it_l : ℕ
  retval_it_r : ℕ
  deriving DecidableEq, Repr

/-- Embedding of `tsp_cs::find_city_subsequence` (lines 182-275): throw when
the tour size differs from the city count, otherwise run the double loop.
The inner `Option` is `none` only if the fuel `n + 1` per loop is
insufficient (shown impossible for `n ≥ 1` below). -/
def find_city_subsequence (w : List (List ℚ)) (v : List ℚ) (maxlen : ℚ) (tour : List ℕ) :
    Except String (Option FindResult) :=
  let n := w.length
  if tour.length ≠ n then
    Except.error ("tour dimension must be equal to the city number")
  else
    match outerLoop w v tour n (n + 1) (initState v tour maxlen) with
    | none => Except.ok none
    | some s => Except.ok (some ⟨s.retval_p, s.retval_l, s.retval_it_l, s.retval_it_r⟩)

/-- C++ conversion of a `double` chromosome entry to an index
(truncation; the claims only use non-negative integral entries). -/
def ratToIdx (q : ℚ) : ℕ := q.floor.toNat

/-- Embedding of `tsp_cs::objfun_impl` (lines 131-159).  The FULL and
RANDOMKEYS decoders live in `base_tsp` (outside `src/`), so they are taken
as function parameters; under CITIES the chromosome is the tour itself. -/
def objfun_impl (full2cities randomkeys2cities : List ℚ → List ℕ) (p : tsp_cs)
    (x : List ℚ) : Except String (Option ℚ) :=
  let tour : List ℕ :=
    match p.m_encoding with
    | EncodingType.FULL => full2cities x
    | EncodingType.RANDOMKEYS => randomkeys2cities x
    | EncodingType.CITIES => x.map ratToIdx
  match find_city_subsequence p.m_weights p.m_values p.m_max_path_length tour with
  | Except.error e => Except.error e
  | Except.ok none => Except.ok none
  | Except.ok (some r) =>
    Except.ok (some (-(r.retval_p + (1 - p.m_min_value) * (p.n_cities : ℚ)
      + r.retval_l / p.m_max_path_length)))

/-- Chromosome read access `x[k]`. -/
def xAt (x : List ℚ) (k : ℕ) : ℚ := x.getD k 0

/-- Degree-constraint loop of the FULL branch (lines 286-298): for each city
`i`, write `c[i]` (outgoing sum minus one) and `c[i + n]` (incoming sum
minus one). -/
def degreeLoop (x : List ℚ) (n : ℕ) (c : List ℚ) : List ℚ :=
  (List.range n).foldl
    (fun acc i =>
      let outSum := (List.range n).foldl
        (fun a j => if i = j then a else a + xAt x (compute_idx i j n)) 0
      let inSum := (List.range n).foldl
        (fun a j => if i = j then a else a + xAt x (compute_idx j i n)) 0
      (acc.set i (outSum - 1)).set (i + n) (inSum - 1))
    c

/-- Inner scan of the MTZ rank walk (lines 307-315): the first `j ≠ cur` with
`x[compute_idx(cur, j, n)] == 1`; when none exists, `next_city` keeps its
previous value. -/
def findNextCity (x : List ℚ) (n cur prevNext : ℕ) : ℕ :=
  match (List.range n).find? (fun j => decide (j ≠ cur) && decide (xAt x (compute_idx cur j n) = 1)) with
  | some j => j
  | none => prevNext

/-- The MTZ rank walk (lines 303-317): starting from city 0, follow the
selected arcs and assign ranks `u[current] = i + 1`. -/
def uWalk (x : List ℚ) (n : ℕ) : List ℤ :=
  (((List.range n).foldl
    (fun (st : List ℤ × ℕ × ℕ) i =>
      let u := st.1.set st.2.1 ((i : ℤ) + 1)
      let nxt := findNextCity x n st.2.1 st.2.2
      (u, nxt, nxt))
    (List.replicate n 0, 0, 0))).1

/-- Subtour-elimination loop (lines 318-326): for ordered pairs of non-start
cities `i ≠ j` in scan order, write
`c[2n + count] = u[i] - u[j] + (n+1) * x[idx(i,j)] - n`. -/
def subtourLoop (x : List ℚ) (n : ℕ) (u : List ℤ) (c : List ℚ) : List ℚ :=
  ((((List.range n).drop 1).flatMap
    (fun i => (((List.range n).drop 1).filter (fun j => decide (j ≠ i))).map (fun j => (i, j)))).foldl
    (fun (st : List ℚ × ℕ) ij =>
      (st.1.set (2 * n + st.2)
        (((u.getD ij.1 0 - u.getD ij.2 0 : ℤ) : ℚ) + ((n : ℚ) + 1) * xAt x (compute_idx ij.1 ij.2 n) - (n : ℚ)),
       st.2 + 1))
    (c, 0)).1

/-- The identity range `[0, n)` cast to doubles, as built by the CITIES
branch (lines 333-337). -/
def castRange (n : ℕ) : List ℚ := (List.range n).map (fun i => (i : ℚ))

/-- Embedding of `tsp_cs::compute_constraints_impl` (lines 277-343), writing
into the caller-supplied constraint vector `c`. -/
def compute_constraints_impl (p : tsp_cs) (x : List ℚ) (c : List ℚ) : List ℚ :=
  let n := p.n_cities
  match p.m_encoding with
  | EncodingType.FULL => subtourLoop x n (uWalk x n) (degreeLoop x n c)
  | EncodingType.RANDOMKEYS => c
  | EncodingType.CITIES =>
    c.set 0 (if x.isPerm (castRange n) then 0 else 1)

/-- State-passing form of the `const` method `objfun_impl`: the method body
contains no member writes, so the instance is returned unchanged. -/
def objfun_state (full2cities randomkeys2cities : List ℚ → List ℕ) (p : tsp_cs)
    (x : List ℚ) : Except String (Option ℚ) × tsp_cs :=
  (objfun_impl full2cities randomkeys2cities p x, p)

/-- State-passing form of the `const` method `compute_constraints_impl`. -/
def compute_constraints_state (p : tsp_cs) (x : List ℚ) (c : List ℚ) :
    (List ℚ) × tsp_cs :=
  (compute_constraints_impl p x c, p)

/-- Modelled from the spec: the value of the cyclic window of `len` positions
starting at tour position `l` is the sum of `values[tour[p]]` over the
positions `p` of the window. -/
def windowValueSpec (v : List ℚ) (tour : List ℕ) (l len : ℕ) : ℚ :=
  ((List.range len).map (fun k => vAt v (tourAt tour ((l + k) % tour.length)))).sum

/-- Modelled from the spec: the internal length of the cyclic window of `len`
positions starting at tour position `l` is the sum of the `len - 1` edge
weights between consecutive cities inside the window. -/
def windowLengthSpec (w : List (List ℚ)) (tour : List ℕ) (l len : ℕ) : ℚ :=
  ((List.range (len - 1)).map
    (fun k => wAt w (tourAt tour ((l + k) % tour.length)) (tourAt tour ((l + k + 1) % tour.length)))).sum

/-- Modelled from the spec: the minimum over the value vector. -/
def specMinValue (v : List ℚ) : ℚ := v.foldr min (v.headD 0)

instance {ε α : Type} [DecidableEq ε] [DecidableEq α] : DecidableEq (Except ε α)
  | Except.error u, Except.error w =>
    if h : u = w then isTrue (by rw [h])
    else isFalse (fun hh => h (by injection hh))
  | Except.error _, Except.ok _ => isFalse (fun hh => Except.noConfusion hh)
  | Except.ok _, Except.error _ => isFalse (fun hh => Except.noConfusion hh)
  | Except.ok u, Except.ok w =>
    if h : u = w then isTrue (by rw [h])
    else isFalse (fun hh => h (by injection hh))

unseal Rat.add Rat.sub Rat.mul Rat.inv Rat.ofScientific in
set_option maxRecDepth 400000 in
/-- C1: the claim states that `find_city_subsequence` returns the cyclic
window maximizing the sum of `values[tour[p]]` subject to the length budget.
On the accepted 2-city instance with weights `[[0,2],[2,0]]`, values
`[5,1]`, budget `1` and tour `[1,0]`, the code returns best value `1`,
although the single-position window at tour position 1 (city 0) has value
`5` and internal length `0 ≤ 1`: the implementation accumulates
`m_values[(it_r+1) % n]` and `m_values[it_l]` — indexing the value vector by
tour position instead of by the city `tour[...]` — so it does not maximize
the claimed objective. -/
theorem C1_find_misses_best_window :
    find_city_subsequence [[0, 2], [2, 0]] [5, 1] 1 [1, 0]
      = Except.ok (some ⟨1, 1, 0, 0⟩) ∧
    windowValueSpec [5, 1] [1, 0] 1 1 = 5 ∧
    windowLengthSpec [[0, 2], [2, 0]] [1, 0] 1 1 = 0 ∧
    ((0 : ℚ) ≤ 1) ∧ ((1 : ℚ) < 5) := by
  refine ⟨?_, ?_, ?_, ?_, ?_⟩ <;> decide

unseal Rat.add Rat.sub Rat.mul Rat.inv Rat.ofScientific in
set_option maxRecDepth 400000 in
/-- C2: the claim states that the cached `m_min_value` is the minimum of the
value vector.  The constructor computes `*std::min(m_values.begin(),
m_values.end())`, which dereferences the smaller iterator — the first
element.  On the accepted instance with values `[2,1]` the cached field is
`2` while the minimum is `1`. -/
theorem C2_min_value_is_first_element :
    tsp_cs_new [[0, 1], [1, 0]] [2, 1] 1 EncodingType.CITIES
      = Except.ok ⟨[[0, 1], [1, 0]], [2, 1], 1, 2, EncodingType.CITIES⟩ ∧
    specMinValue [2, 1] = 1 ∧ ((2 : ℚ) ≠ 1) := by
  refine ⟨?_, ?_, ?_⟩ <;> decide

set_option maxRecDepth 400000 in
/-- C3: the claim states that a NaN off-diagonal entry makes `check_weights`
raise the InvalidWeightError.  The NaN test on line 105 is
`(!x) == x`, which is false for every double (`!x` is `0.0` or `1.0` and
never compares equal to `x`; for NaN every comparison is false), so the
matrix `[[0, NaN], [1, 0]]` is accepted. -/
theorem C3_nan_matrix_accepted :
    check_weights [[some 0, none], [some 1, some 0]] = Except.ok () ∧
    (([[some 0, none], [some 1, some 0]] : List (List DVal)).getD 0 []).getD 1 (some 0) = none := by
  refine ⟨?_, ?_⟩ <;> decide

unseal Rat.add Rat.sub Rat.mul Rat.inv Rat.ofScientific in
set_option maxRecDepth 400000 in
/-- C5: on the default 3-city instance (unit off-diagonal weights, values
`[1,1,1]`, budget 1) with tour `[0,1,2]`, the search returns best value 2
with remaining budget 0 (the 2-city window `[0,1]`), and `objfun_impl`
(with the external decoder producing that tour) yields fitness
`-(2 + (1-1)*3 + 0/1) = -2`. -/
theorem C5_default_instance_fitness :
    find_city_subsequence [[0, 1, 1], [1, 0, 1], [1, 1, 0]] [1, 1, 1] 1 [0, 1, 2]
      = Except.ok (some ⟨2, 0, 0, 1⟩) ∧
    ∀ f2c : List ℚ → List ℕ, ∀ x : List ℚ,
      objfun_impl f2c (fun _ => [0, 1, 2]) tsp_cs_default x = Except.ok (some (-2)) := by
  refine ⟨by decide, fun f2c x => ?_⟩
  simp only [objfun_impl, tsp_cs_default]
  decide

unseal Rat.add Rat.sub Rat.mul Rat.inv Rat.ofScientific in
set_option maxRecDepth 400000 in
/-- C6: the claim states that the best value returned by
`find_city_subsequence` is monotone non-decreasing in `maxPathLength`.  On
the accepted instance with weights `[[0,4],[1,0]]`, values `[-5,0]` and tour
`[0,1]`, the budget 2 returns best value 0, but the larger budget 4 returns
best value -5: with the larger budget the first growth phase reaches the
wrap position with the budget already exceeded, the exit test
`it_l % n == it_r % n` fires, and the left-shrink phase that would have
found the better window is never run. -/
theorem C6_value_not_monotone_in_budget :
    find_city_subsequence [[0, 4], [1, 0]] [-5, 0] 2 [0, 1]
      = Except.ok (some ⟨0, 2, 1, 1⟩) ∧
    find_city_subsequence [[0, 4], [1, 0]] [-5, 0] 4 [0, 1]
      = Except.ok (some ⟨-5, 4, 0, 0⟩) ∧
    ((2 : ℚ) ≤ 4) ∧ ((-5 : ℚ) < 0) := by
  refine ⟨?_, ?_, ?_, ?_⟩ <;> decide

/-- C7: under the CITIES encoding, the constraint written by
`compute_constraints_impl` into the single slot is 0 iff the chromosome is
a permutation of `[0, n)` (multiset equality against the identity range, as
tested by `std::is_permutation`), and 1 otherwise. -/
theorem C7_cities_constraint_permutation (p : tsp_cs) (x : List ℚ) (c0 : ℚ)
    (henc : p.m_encoding = EncodingType.CITIES) (_hlen : x.length = p.n_cities) :
    (x.Perm (castRange p.n_cities) → compute_constraints_impl p x [c0] = [0]) ∧
    (¬ x.Perm (castRange p.n_cities) → compute_constraints_impl p x [c0] = [1]) := by
  constructor
  · intro hperm
    simp [compute_constraints_impl, henc, List.isPerm_iff, hperm]
  · intro hnp
    simp [compute_constraints_impl, henc, List.isPerm_iff, hnp]

/-- C7 witness: on 3 cities the chromosome `[0,1,2]` yields constraint `[0]`
and `[0,0,2]` yields `[1]`. -/
theorem C7_witness :
    compute_constraints_impl ⟨[[0, 1, 1], [1, 0, 1], [1, 1, 0]], [1, 1, 1], 1, 1, EncodingType.CITIES⟩ [0, 1, 2] [7] = [0] ∧
    compute_constraints_impl ⟨[[0, 1, 1], [1, 0, 1], [1, 1, 0]], [1, 1, 1], 1, 1, EncodingType.CITIES⟩ [0, 0, 2] [7] = [1] :=
  ⟨(C7_cities_constraint_permutation _ [0, 1, 2] 7 rfl (by decide)).1 (by decide),
   (C7_cities_constraint_permutation _ [0, 0, 2] 7 rfl (by decide)).2 (by decide)⟩

/-- C8: evaluation is deterministic and side-effect free.  The C++ methods
are `const` and write no member, so their state-passing embeddings return
the instance unchanged; evaluating the same chromosome again on the
returned instance yields the same fitness and constraint values, and no
evaluation modifies `m_weights`, `m_values`, `m_max_path_length` or
`m_min_value`. -/
theorem C8_evaluation_pure :
    ∀ (f2c rk2c : List ℚ → List ℕ) (p : tsp_cs) (x : List ℚ) (c : List ℚ),
      (objfun_state f2c rk2c p x).2 = p ∧
      (compute_constraints_state p x c).2 = p ∧
      (objfun_state f2c rk2c (objfun_state f2c rk2c p x).2 x).1
        = (objfun_state f2c rk2c p x).1 ∧
      (compute_constraints_state (compute_constraints_state p x c).2 x c).1
        = (compute_constraints_state p x c).1 :=
  fun _ _ _ _ _ => ⟨rfl, rfl, rfl, rfl⟩

/-- Uniqueness of the base-`e` decomposition `i * e + a` with `a < e`. -/
theorem natMulAddInj (e i a i2 a2 : ℕ) (ha : a < e) (ha2 : a2 < e)
    (h : i * e + a = i2 * e + a2) : i = i2 ∧ a = a2 := by
  rcases Nat.lt_trichotomy i i2 with hlt | heq | hgt
  · have h1 : (i + 1) * e ≤ i2 * e := Nat.mul_le_mul_right e (by omega)
    have h2 : (i + 1) * e = i * e + e := by ring
    omega
  · subst heq; omega
  · have h1 : (i2 + 1) * e ≤ i * e := Nat.mul_le_mul_right e (by omega)
    have h2 : (i2 + 1) * e = i2 * e + e := by ring
    omega

/-- Unfolding of `compute_idx` with the city count written as `m + 1`. -/
theorem compute_idx_eq (i j m : ℕ) :
    compute_idx i j (m + 1) = i * m + j - (if j > i then 1 else 0) := by
  simp [compute_idx]

/-- C10: for `n ≥ 2`, `compute_idx` is injective on the ordered pairs
`(i, j)` with `i ≠ j`, `i < n`, `j < n`, its values stay below `n*(n-1)`,
and every flat index below `n*(n-1)` is hit — so the arc-variable indices
read by the FULL degree and subtour loops are distinct and in range. -/
theorem C10_compute_idx_bijection (n : ℕ) (hn : 2 ≤ n) :
    (∀ i1 j1 i2 j2, i1 ≠ j1 → i1 < n → j1 < n → i2 ≠ j2 → i2 < n → j2 < n →
      compute_idx i1 j1 n = compute_idx i2 j2 n → i1 = i2 ∧ j1 = j2) ∧
    (∀ i j, i ≠ j → i < n → j < n → compute_idx i j n < n * (n - 1)) ∧
    (∀ k, k < n * (n - 1) → ∃ i j, i ≠ j ∧ i < n ∧ j < n ∧ compute_idx i j n = k) := by
  obtain ⟨m, rfl⟩ : ∃ m, n = m + 1 := ⟨n - 1, by omega⟩
  have hm : 1 ≤ m := by omega
  have htot : (m + 1) * (m + 1 - 1) = m * m + m := by
    rw [Nat.add_sub_cancel]; ring
  have hkey : ∀ i j, i ≠ j → i < m + 1 → j < m + 1 →
      compute_idx i j (m + 1) = i * m + (if i < j then j - 1 else j) ∧
      (if i < j then j - 1 else j) < m := by
    intro i j hij hi hj
    rw [compute_idx_eq]
    constructor
    · split_ifs <;> omega
    · split_ifs <;> omega
  refine ⟨?_, ?_, ?_⟩
  · intro i1 j1 i2 j2 h1 hi1 hj1 h2 hi2 hj2 heq
    obtain ⟨e1, b1⟩ := hkey i1 j1 h1 hi1 hj1
    obtain ⟨e2, b2⟩ := hkey i2 j2 h2 hi2 hj2
    rw [e1, e2] at heq
    obtain ⟨hi, hj⟩ := natMulAddInj m i1 _ i2 _ b1 b2 heq
    refine ⟨hi, ?_⟩
    subst hi
    split_ifs at hj <;> omega
  · intro i j hij hi hj
    obtain ⟨e1, b1⟩ := hkey i j hij hi hj
    rw [e1]
    have h1 : i * m ≤ m * m := Nat.mul_le_mul_right m (by omega)
    omega
  · intro k hk
    rw [htot] at hk
    have hdm : m * (k / m) + k % m = k := Nat.div_add_mod k m
    have hmod : k % m < m := Nat.mod_lt k hm
    have hdiv : k / m < m + 1 := by
      rw [Nat.div_lt_iff_lt_mul hm]
      have hc : (m + 1) * m = m * m + m := by ring
      omega
    refine ⟨k / m, if k % m < k / m then k % m else k % m + 1, ?_, hdiv, ?_, ?_⟩
    · split_ifs <;> omega
    · split_ifs <;> omega
    · rw [compute_idx_eq]
      have hcomm : k / m * m = m * (k / m) := Nat.mul_comm (k / m) m
      split_ifs <;> omega

/-- C10 witness: at `n = 3` the map sends the off-diagonal pair `(0, 2)`
below `3 * 2`. -/
theorem C10_witness : 2 ≤ 3 ∧ compute_idx 0 2 3 < 3 * (3 - 1) :=
  ⟨by norm_num,
   (C10_compute_idx_bijection 3 (by norm_num)).2.1 0 2 (by norm_num) (by norm_num) (by norm_num)⟩

/-- The NaN test of line 105, `(!x) == x`, is false for every double:
`!x` is `0.0` or `1.0` and never compares equal to `x` itself (for NaN all
comparisons are false).  The InvalidWeightError branch is dead code. -/
theorem nanCheckExpr_false (x : DVal) : nanCheckExpr x = false := by
  cases x with
  | none => rfl
  | some q =>
    by_cases hq : q = 0
    · subst hq
      norm_num [nanCheckExpr, dNotVal, dToBool, dEq]
    · simp [nanCheckExpr, dNotVal, dToBool, dEq, hq, Ne.symm hq]

/-- A cell passes the per-cell checks iff it is exactly zero on the diagonal
and non-zero (in the C++ truthiness sense, NaN included) off it. -/
theorem checkCell_ok_iff (i j : ℕ) (x : DVal) :
    checkCell i j x = Except.ok () ↔ ((i = j → x = some 0) ∧ (i ≠ j → x ≠ some 0)) := by
  have hzero : (¬ dNeZero x = true) ↔ x = some 0 := by
    cases x with
    | none => simp [dNeZero]
    | some q => simp [dNeZero]
  have htruthy : dToBool x = true ↔ x ≠ some 0 := by
    cases x with
    | none => simp [dToBool]
    | some q => simp [dToBool]
  rw [checkCell]
  split_ifs with h1 h2 h3
  · apply iff_of_false (by simp)
    rintro ⟨ha, _⟩
    rcases h1 with ⟨hij, hd⟩
    rw [ha hij] at hd
    simp [dNeZero] at hd
  · apply iff_of_false (by simp)
    rintro ⟨_, hb⟩
    exact h2.2 (htruthy.mpr (hb h2.1))
  · rw [nanCheckExpr_false] at h3
    simp at h3
  · apply iff_of_true rfl
    constructor
    · intro hij
      apply hzero.mp
      intro hd
      exact h1 ⟨hij, hd⟩
    · intro hij
      apply htruthy.mp
      cases hd : dToBool x
      · exact absurd ⟨hij, by simp [hd]⟩ h2
      · rfl

/-- The row scan succeeds iff every cell check succeeds. -/
theorem checkCells_ok_iff (i : ℕ) (xs : List DVal) :
    ∀ (j : ℕ), checkCells i j xs = Except.ok () ↔
      ∀ k, k < xs.length → checkCell i (j + k) (xs.getD k (some 0)) = Except.ok () := by
  induction xs with
  | nil => intro j; simp [checkCells]
  | cons x rest ih =>
    intro j
    rw [checkCells]
    cases hc : checkCell i j x with
    | error e =>
      apply iff_of_false (by simp)
      intro hall
      have h0 := hall 0 (by simp)
      rw [Nat.add_zero, List.getD_cons_zero, hc] at h0
      cases h0
    | ok u =>
      cases u
      rw [ih (j + 1)]
      constructor
      · intro hall k hk
        cases k with
        | zero =>
          rw [Nat.add_zero, List.getD_cons_zero, hc]
        | succ k2 =>
          have hx := hall k2 (by simpa [Nat.succ_lt_succ_iff] using hk)
          rw [List.getD_cons_succ]
          rw [show j + (k2 + 1) = j + 1 + k2 by omega]
          exact hx
      · intro hall k hk
        have hx := hall (k + 1) (by simpa using Nat.succ_lt_succ hk)
        rw [List.getD_cons_succ] at hx
        rw [show j + 1 + k = j + (k + 1) by omega]
        exact hx

/-- The matrix scan succeeds iff every row has the right length and every
cell check succeeds. -/
theorem checkRows_ok_iff (ncols : ℕ) (rows : List (List DVal)) :
    ∀ (i : ℕ), checkRows ncols i rows = Except.ok () ↔
      ∀ k, k < rows.length →
        (rows.getD k []).length = ncols ∧
        ∀ l, l < (rows.getD k []).length →
          checkCell (i + k) l ((rows.getD k []).getD l (some 0)) = Except.ok () := by
  induction rows with
  | nil => intro i; simp [checkRows]
  | cons row rest ih =>
    intro i
    rw [checkRows]
    by_cases hsq : row.length = ncols
    · rw [if_neg (by simpa using hsq)]
      cases hc : checkCells i 0 row with
      | error e =>
        apply iff_of_false (by simp)
        intro hall
        have h0 := (hall 0 (by simp)).2
        rw [List.getD_cons_zero] at h0
        have hcells := (checkCells_ok_iff i row 0).mpr (by simpa using h0)
        rw [hc] at hcells
        cases hcells
      | ok u =>
        cases u
        rw [ih (i + 1)]
        have hcells := (checkCells_ok_iff i row 0).mp hc
        constructor
        · intro hall k hk
          cases k with
          | zero =>
            refine ⟨by simpa using hsq, ?_⟩
            intro l hl
            rw [List.getD_cons_zero] at hl ⊢
            rw [Nat.add_zero]
            simpa using hcells l hl
          | succ k2 =>
            have hx := hall k2 (by simpa [Nat.succ_lt_succ_iff] using hk)
            rw [List.getD_cons_succ]
            rw [show i + (k2 + 1) = i + 1 + k2 by omega]
            exact hx
        · intro hall k hk
          have hx := hall (k + 1) (by simpa using Nat.succ_lt_succ hk)
          rw [List.getD_cons_succ] at hx
          rw [show i + 1 + k = i + (k + 1) by omega]
          exact hx
    · rw [if_pos (by simpa using hsq)]
      apply iff_of_false (by simp)
      intro hall
      exact hsq (by simpa using (hall 0 (by simp)).1)

/-- C4 (amended): `check_weights` accepts a matrix iff it is square, every
diagonal entry is exactly `0`, and every off-diagonal entry differs from
`0` (NaN entries count as non-zero).  Nothing constrains the sign of the
entries, so acceptance does not imply non-negative weights and does not
license the claimed window-length monotonicity. -/
theorem C4_check_weights_accepts_iff (m : List (List DVal)) :
    check_weights m = Except.ok () ↔
      ((∀ k, k < m.length → (m.getD k []).length = m.length) ∧
       (∀ k, k < m.length → ∀ l, l < m.length →
         (k = l → (m.getD k []).getD l (some 0) = some 0) ∧
         (k ≠ l → (m.getD k []).getD l (some 0) ≠ some 0))) := by
  rw [check_weights, checkRows_ok_iff]
  constructor
  · intro h
    refine ⟨fun k hk => (h k hk).1, fun k hk l hl => ?_⟩
    have hrow := h k hk
    have hl2 : l < (m.getD k []).length := by rw [hrow.1]; exact hl
    have hcell := hrow.2 l hl2
    rw [Nat.zero_add] at hcell
    exact (checkCell_ok_iff k l _).mp hcell
  · rintro ⟨hsq, hcl⟩ k hk
    refine ⟨hsq k hk, fun l hl => ?_⟩
    have hl2 : l < m.length := by rw [← hsq k hk]; exact hl
    rw [Nat.zero_add]
    exact (checkCell_ok_iff k l _).mpr (hcl k hk l hl2)

/-- C4 counterexample: the claim says every accepted matrix has only
non-negative entries; the matrix `[[0,-1],[-1,0]]` is accepted by
`check_weights` and contains the negative entry `-1`. -/
theorem C4_negative_weight_accepted :
    check_weights [[some 0, some (-1)], [some (-1), some 0]] = Except.ok () ∧
    (([[some 0, some (-1)], [some (-1), some 0]] : List (List DVal)).getD 0 []).getD 1 (some 0)
      = some (-1) ∧
    ((-1 : ℚ) < 0) := by
  refine ⟨?_, ?_, ?_⟩ <;> decide

/-- C4 witness: the amended characterisation applied to the concrete
all-ones off-diagonal 2x2 matrix. -/
theorem C4_amended_witness :
    check_weights [[some 0, some 1], [some 1, some 0]] = Except.ok () :=
  (C4_check_weights_accepts_iff [[some 0, some 1], [some 1, some 0]]).mpr (by decide)

/-- The inner body never moves the left cursor. -/
theorem innerBody_it_l (w : List (List ℚ)) (v : List ℚ) (tour : List ℕ) (n : ℕ) (s : SState) :
    (innerBody w v tour n s).it_l = s.it_l := by
  simp only [innerBody]
  split_ifs <;> rfl

/-- The inner body advances the right cursor by exactly one. -/
theorem innerBody_it_r (w : List (List ℚ)) (v : List ℚ) (tour : List ℕ) (n : ℕ) (s : SState) :
    (innerBody w v tour n s).it_r = s.it_r + 1 := by
  simp only [innerBody]
  split_ifs <;> rfl

/-- The inner body never touches the outer-loop flag. -/
theorem innerBody_cond_l (w : List (List ℚ)) (v : List ℚ) (tour : List ℕ) (n : ℕ) (s : SState) :
    (innerBody w v tour n s).cond_l = s.cond_l := by
  simp only [innerBody]
  split_ifs <;> rfl

/-- When the inner body leaves the loop flag set, the advanced right cursor
has not wrapped onto the left cursor. -/
theorem innerBody_cond_r_mod (w : List (List ℚ)) (v : List ℚ) (tour : List ℕ) (n : ℕ)
    (s : SState) (h : (innerBody w v tour n s).cond_r = true) :
    ¬ s.it_l % n = (s.it_r + 1) % n := by
  intro hmod
  simp only [innerBody] at h
  split_ifs at h with h1 h2 h3
  all_goals exact h1 (Or.inr hmod)

/-- The inner loop terminates: with the window invariant `it_l ≤ it_r ≤ it_l + n`
and enough fuel it reaches a state with `cond_r = false`, leaving `it_l` and
`cond_l` untouched and preserving the invariant. -/
theorem innerLoop_runs (w : List (List ℚ)) (v : List ℚ) (tour : List ℕ) (n : ℕ) :
    ∀ (fuel : ℕ) (s : SState),
      s.it_l ≤ s.it_r → s.it_r ≤ s.it_l + n → (s.cond_r = true → s.it_r < s.it_l + n) →
      s.it_l + n ≤ s.it_r + fuel →
      ∃ s1, innerLoop w v tour n fuel s = some s1 ∧ s1.cond_r = false ∧
        s1.it_l = s.it_l ∧ s1.cond_l = s.cond_l ∧ s1.it_l ≤ s1.it_r ∧ s1.it_r ≤ s1.it_l + n := by
  intro fuel
  induction fuel with
  | zero =>
    intro s h1 h2 h3 h4
    have hcr : s.cond_r = false := by
      cases hcr2 : s.cond_r
      · rfl
      · have := h3 hcr2
        omega
    exact ⟨s, by simp [innerLoop, hcr], hcr, rfl, rfl, h1, h2⟩
  | succ fuel ih =>
    intro s h1 h2 h3 h4
    cases hcr : s.cond_r with
    | false => exact ⟨s, by simp [innerLoop, hcr], hcr, rfl, rfl, h1, h2⟩
    | true =>
      have hlt := h3 hcr
      have hb1 := innerBody_it_l w v tour n s
      have hb2 := innerBody_it_r w v tour n s
      have hb3 := innerBody_cond_l w v tour n s
      have hmodfact : (innerBody w v tour n s).cond_r = true →
          (innerBody w v tour n s).it_r < (innerBody w v tour n s).it_l + n := by
        intro hcr2
        have hne := innerBody_cond_r_mod w v tour n s hcr2
        rw [hb1, hb2]
        rcases Nat.lt_or_ge (s.it_r + 1) (s.it_l + n) with hx | hx
        · exact hx
        · exfalso
          apply hne
          have heq : s.it_r + 1 = s.it_l + n := by omega
          rw [heq, Nat.add_mod_right]
      obtain ⟨s1, hrun, hc1, hl1, hcl1, hle1, hle2⟩ :=
        ih (innerBody w v tour n s) (by rw [hb1, hb2]; omega) (by rw [hb1, hb2]; omega)
          hmodfact (by rw [hb1, hb2]; omega)
      refine ⟨s1, ?_, hc1, by rw [hl1, hb1], by rw [hcl1, hb3], hle1, hle2⟩
      rw [show innerLoop w v tour n (fuel + 1) s
            = innerLoop w v tour n fuel (innerBody w v tour n s) by simp [innerLoop, hcr]]
      exact hrun

/-- When the window has wrapped, the outer body merely clears the loop flag. -/
theorem outerBody_wrap (w : List (List ℚ)) (v : List ℚ) (tour : List ℕ) (n : ℕ) (s : SState)
    (h : s.it_l % n = s.it_r % n) :
    outerBody w v tour n s = { s with cond_l := false } := by
  simp [outerBody, h]

/-- When the window has not wrapped, the outer body advances the left cursor
by one, keeps the right cursor, and clears the loop flag exactly when the
left cursor reaches `n`. -/
theorem outerBody_shrink (w : List (List ℚ)) (v : List ℚ) (tour : List ℕ) (n : ℕ) (s : SState)
    (h : ¬ s.it_l % n = s.it_r % n) :
    (outerBody w v tour n s).it_l = s.it_l + 1 ∧
    (outerBody w v tour n s).it_r = s.it_r ∧
    (outerBody w v tour n s).cond_l = (if s.it_l + 1 = n then false else s.cond_l) := by
  simp only [outerBody, if_neg h]
  split_ifs <;> simp_all

/-- The outer loop terminates: the left cursor strictly increases towards
`n` (or the wrap exit fires), so fuel `n + 1` suffices. -/
theorem outerLoop_runs (w : List (List ℚ)) (v : List ℚ) (tour : List ℕ) (n : ℕ) :
    ∀ (fuel : ℕ) (s : SState),
      s.it_l ≤ s.it_r → s.it_r ≤ s.it_l + n → (s.cond_r = true → s.it_r < s.it_l + n) →
      (s.cond_l = true → s.it_l < n) → (s.cond_l = true → n + 1 ≤ s.it_l + fuel) →
      ∃ s1, outerLoop w v tour n fuel s = some s1 := by
  intro fuel
  induction fuel with
  | zero =>
    intro s h1 h2 h3 h4 h5
    have hcl : s.cond_l = false := by
      cases hc : s.cond_l
      · rfl
      · have := h4 hc
        have := h5 hc
        omega
    exact ⟨s, by simp [outerLoop, hcl]⟩
  | succ fuel ih =>
    intro s h1 h2 h3 h4 h5
    cases hcl : s.cond_l with
    | false => exact ⟨s, by simp [outerLoop, hcl]⟩
    | true =>
      obtain ⟨s1, hrun, hc1, hl1, hcl1, hle1, hle2⟩ :=
        innerLoop_runs w v tour n (n + 1) s h1 h2 h3 (by omega)
      have hcl1t : s1.cond_l = true := by rw [hcl1, hcl]
      have hstep : outerLoop w v tour n (fuel + 1) s
          = outerLoop w v tour n fuel (outerBody w v tour n s1) := by
        simp [outerLoop, hcl, hrun]
      by_cases hmod : s1.it_l % n = s1.it_r % n
      · have hb := outerBody_wrap w v tour n s1 hmod
        obtain ⟨s2, hrun2⟩ := ih { s1 with cond_l := false } hle1 hle2
          (by intro hcc
              have hx : s1.cond_r = true := hcc
              rw [hc1] at hx
              cases hx)
          (by intro hcc
              have hx : false = true := hcc
              cases hx)
          (by intro hcc
              have hx : false = true := hcc
              cases hx)
        refine ⟨s2, ?_⟩
        rw [hstep, hb]
        exact hrun2
      · obtain ⟨he1, he2, he3⟩ := outerBody_shrink w v tour n s1 hmod
        have hlt1 : s1.it_l < s1.it_r := by
          rcases Nat.lt_or_ge s1.it_l s1.it_r with hx | hx
          · exact hx
          · exfalso
            have hxx : s1.it_l = s1.it_r := by omega
            exact hmod (by rw [hxx])
        have hiln : s1.it_l < n := by
          rw [hl1]
          exact h4 hcl
        obtain ⟨s2, hrun2⟩ := ih (outerBody w v tour n s1)
          (by rw [he1, he2]; omega)
          (by rw [he1, he2]; omega)
          (by intro _; rw [he1, he2]; omega)
          (by intro hcc
              rw [he3] at hcc
              rw [he1]
              split_ifs at hcc with hx
              omega)
          (by intro _
              rw [he1, hl1]
              have := h5 hcl
              omega)
        refine ⟨s2, ?_⟩
        rw [hstep]
        exact hrun2

/-- C9: for `n ≥ 1` cities and a tour of the right length with entries in
`[0, n)`, `find_city_subsequence` terminates: the inner loop advances `it_r`
at most `n` positions per left boundary (fuel `n + 1` per call) and the
outer loop advances `it_l` at most `n` times (fuel `n + 1`), so the search
returns a result instead of exhausting its fuel. -/
theorem C9_find_terminates (w : List (List ℚ)) (v : List ℚ) (maxlen : ℚ) (tour : List ℕ)
    (hn : 1 ≤ w.length) (hlen : tour.length = w.length)
    (_hrange : ∀ c ∈ tour, c < w.length) :
    ∃ r, find_city_subsequence w v maxlen tour = Except.ok (some r) := by
  obtain ⟨s1, hrun⟩ := outerLoop_runs w v tour w.length (w.length + 1) (initState v tour maxlen)
    (by simp [initState]) (by simp [initState]) (by intro _; simp [initState]; omega)
    (by intro _; simp [initState]; omega) (by intro _; simp [initState])
  refine ⟨⟨s1.retval_p, s1.retval_l, s1.retval_it_l, s1.retval_it_r⟩, ?_⟩
  simp [find_city_subsequence, hlen, hrun]

/-- C9 witness: the search terminates on the concrete 2-city instance with
unit weights and the identity tour. -/
theorem C9_witness :
    ∃ r, find_city_subsequence [[0, 1], [1, 0]] [1, 1] 1 [0, 1] = Except.ok (some r) :=
  C9_find_terminates [[0, 1], [1, 0]] [1, 1] 1 [0, 1] (by norm_num) (by norm_num) (by decide)
